import Mathlib

/-!
Verification of the markdown_converter PDF split/convert/merge pipeline.

Shallow embedding of `src/converter/marker_converter.py` and the job-start
routes of `src/main.py`. External effects (the renderer, the filesystem,
the thread pool) are modelled as explicit inputs and explicit state; all
pure control flow and arithmetic is translated directly from the source.
Leading underscores of Python names are dropped (`_get_split_count`
becomes `get_split_count`, and so on).
-/

namespace MarkdownConverter

/-- Split threshold in bytes: 5 MB and above means 2 parts
(`_SPLIT_THRESHOLD_2` in marker_converter.py, line 71). -/
def SPLIT_THRESHOLD_2 : Nat := 5 * 1024 * 1024

/-- Split threshold in bytes: 10 MB and above means 4 parts
(`_SPLIT_THRESHOLD_4` in marker_converter.py, line 72). -/
def SPLIT_THRESHOLD_4 : Nat := 10 * 1024 * 1024

/-- Number of parts chosen from the file size
(`_get_split_count`, marker_converter.py lines 78-84). -/
def get_split_count (file_size : Nat) : Nat :=
  if SPLIT_THRESHOLD_4 ≤ file_size then 4
  else if SPLIT_THRESHOLD_2 ≤ file_size then 2
  else 1

/-- Pages per part: `math.ceil(total_pages / num_splits)` on integers
(marker_converter.py line 96), written as ceiling division on Nat. -/
def pages_per_split (total_pages num_splits : Nat) : Nat :=
  (total_pages + num_splits - 1) / num_splits

/-- The page-range loop of `_split_pdf` (marker_converter.py lines 101-114):
for `i` from the current index up, emit the range
`(i * pps, min (i * pps + pps) total_pages)` and stop (`break`) as soon as
the start index reaches `total_pages`.  The first argument is the
remaining number of loop iterations (`num_splits - i`). -/
def split_pdf_loop (total_pages pps : Nat) : Nat → Nat → List (Nat × Nat)
  | 0, _ => []
  | Nat.succ fuel, i =>
    if total_pages ≤ i * pps then []
    else (i * pps, min (i * pps + pps) total_pages) ::
      split_pdf_loop total_pages pps fuel (i + 1)

/-- Page ranges produced by `_split_pdf` (marker_converter.py lines 87-118)
for a document of `total_pages` pages split into `num_splits` parts; the
part written for range `(s, e)` holds pages `s, s+1, ..., e-1`
(0-based, as in `range(start, end)` of the source). -/
def split_pdf (total_pages num_splits : Nat) : List (Nat × Nat) :=
  split_pdf_loop total_pages (pages_per_split total_pages num_splits) num_splits 0

/-- The list of page indices covered by one emitted range. -/
def rangePages (r : Nat × Nat) : List Nat := List.range' r.1 (r.2 - r.1)

/-- Result dataclass of the converter (`ConversionResult`,
marker_converter.py lines 29-36).  Image objects are opaque to the
pipeline; they are modelled as natural-number identifiers, and the
`images` and `metadata` dicts as insertion-ordered association lists,
matching Python dict iteration order. -/
structure ConversionResult where
  success : Bool
  markdown : String
  images : List (String × Nat)
  metadata : List (String × Nat)
  error : Option String := none
deriving Repr, DecidableEq

/-- Outcome of `_convert_single_pdf` on one split part as observed by the
loop of `_convert_pdf_split` (lines 252-257): `none` when the call raised
(renderer error or timeout), `some (markdown, images)` on success. -/
abbrev PartOutcome := Option (String × List (String × Nat))

/-- Key used for an image of part number `part_num` in the merged map:
`f"part{part_num}_{img_name}"` (marker_converter.py line 268). -/
def part_key (part_num : Nat) (img_name : String) : String :=
  "part" ++ toString part_num ++ "_" ++ img_name

/-- Python dict assignment `d[k] = v`: overwrite in place when the key is
present, append otherwise. -/
def dictInsert (m : List (String × Nat)) (k : String) (v : Nat) :
    List (String × Nat) :=
  if m.any (fun p => p.1 = k) then
    m.map (fun p => if p.1 = k then (k, v) else p)
  else m ++ [(k, v)]

/-- Markdown rewriting of one successful part (marker_converter.py lines
267-277): for each image, in dict order, replace `f"({img_name})"` by
`f"(<{stem}_images/part{part_num}_{img_name}>)"`. -/
def rewrite_part_md (stem : String) (part_num : Nat) (md : String)
    (images : List (String × Nat)) : String :=
  images.foldl
    (fun acc p =>
      acc.replace ("(" ++ p.1 ++ ")")
        ("(<" ++ stem ++ "_images/" ++ part_key part_num p.1 ++ ">)"))
    md

/-- Merged-map insertion of one successful part (marker_converter.py lines
267-271): each image is stored under its part-prefixed key. -/
def insert_part_images (m : List (String × Nat)) (part_num : Nat)
    (images : List (String × Nat)) : List (String × Nat) :=
  images.foldl (fun acc p => dictInsert acc (part_key part_num p.1) p.2) m

/-- Mutable loop state of `_convert_pdf_split` (lines 242-246):
`md_parts`, `all_images`, `success_count`, `fail_count`. -/
structure SplitAcc where
  md_parts : List String
  all_images : List (String × Nat)
  success_count : Nat
  fail_count : Nat
deriving Repr, DecidableEq

/-- The per-part loop of `_convert_pdf_split` (lines 248-279).  `i` is the
0-based index in `enumerate(split_paths)` and the part number is `i + 1`.
A `none` outcome (exception from `_convert_single_pdf`) increments the
fail counter and continues; a success increments the success counter,
stores its images under part-prefixed keys when `save_images` is set and
the part has images, rewrites its markdown accordingly, and appends the
markdown. -/
def split_convert_loop (stem : String) (save_images : Bool) :
    List PartOutcome → Nat → SplitAcc → SplitAcc
  | [], _, acc => acc
  | none :: rest, i, acc =>
      split_convert_loop stem save_images rest (i + 1)
        { acc with fail_count := acc.fail_count + 1 }
  | some (md, images) :: rest, i, acc =>
      split_convert_loop stem save_images rest (i + 1)
        { md_parts := acc.md_parts ++
            [if save_images && !images.isEmpty then
              rewrite_part_md stem (i + 1) md images
            else md]
          all_images :=
            if save_images && !images.isEmpty then
              insert_part_images acc.all_images (i + 1) images
            else acc.all_images
          success_count := acc.success_count + 1
          fail_count := acc.fail_count }

/-- Merge step of `_convert_pdf_split` (lines 281-308), applied to the
loop result: if no part produced markdown, a failed `ConversionResult`
carrying the all-parts-failed error; otherwise a successful result whose
markdown is the parts joined by `"\n\n---\n\n"` and whose metadata holds
`split_count` (the number of produced parts), `success_count` and
`fail_count`. -/
def convert_pdf_split_core (stem : String) (save_images : Bool)
    (outcomes : List PartOutcome) : ConversionResult :=
  let acc := split_convert_loop stem save_images outcomes 0 ⟨[], [], 0, 0⟩
  if acc.md_parts.isEmpty then
    { success := false, markdown := "", images := [], metadata := [],
      error := some ("모든 파트(" ++ toString outcomes.length ++ "개) 변환 실패") }
  else
    { success := true,
      markdown := String.intercalate "\n\n---\n\n" acc.md_parts,
      images := acc.all_images,
      metadata := [("split_count", outcomes.length),
        ("success_count", acc.success_count),
        ("fail_count", acc.fail_count)] }

/-- The markdown texts contributed by the successful parts, in part order:
the original text when image rewriting is off or the part has no images,
the rewritten text otherwise (lines 263-279 of the source restricted to
the `md_parts` variable). -/
def processed_mds (stem : String) (save_images : Bool) :
    Nat → List PartOutcome → List String
  | _, [] => []
  | i, none :: rest => processed_mds stem save_images (i + 1) rest
  | i, some (md, images) :: rest =>
      (if save_images && !images.isEmpty then
        rewrite_part_md stem (i + 1) md images
      else md) :: processed_mds stem save_images (i + 1) rest

/-- The `all_images` component of the loop of `_convert_pdf_split` in
isolation: successive part-prefixed dict insertions starting from `m`. -/
def loop_images (save_images : Bool) :
    Nat → List PartOutcome → List (String × Nat) → List (String × Nat)
  | _, [], m => m
  | i, none :: rest, m => loop_images save_images (i + 1) rest m
  | i, some (_, images) :: rest, m =>
      loop_images save_images (i + 1) rest
        (if save_images && !images.isEmpty then
          insert_part_images m (i + 1) images
        else m)

/-- Expected shape of the merged image map when images are saved: the
successful parts' images in part order, each under its part-prefixed key.
Stated from the wording of the claim, to be compared with the map the
loop actually builds. -/
def merged_images_expected (i : Nat) :
    List PartOutcome → List (String × Nat)
  | [] => []
  | none :: rest => merged_images_expected (i + 1) rest
  | some (_, images) :: rest =>
      images.map (fun p => (part_key (i + 1) p.1, p.2)) ++
        merged_images_expected (i + 1) rest

/-- Observable behavior of one call to `_split_pdf` (marker_converter.py
lines 87-118), as seen by `_convert_pdf_split`: the call can raise before
`tempfile.mkdtemp` (line 94, `PdfReader` fails — no scratch directory
exists), raise after it (lines 101-113, a page read or part write fails —
the scratch directory exists but the caller never receives its name,
since the tuple assignment on line 239 does not happen), or return the
split parts together with the scratch directory.  In the `ok` case the
per-part conversion outcomes of the returned parts are bundled in. -/
inductive SplitterBehavior where
  | raiseBeforeMkdir (err : String)
  | raiseAfterMkdir (dir : Nat) (err : String)
  | ok (dir : Nat) (outcomes : List PartOutcome)
deriving Repr, DecidableEq

/-- `_convert_pdf_split` (marker_converter.py lines 229-317) with the
filesystem modelled as the list of existing scratch directories.
`tmp_dir` starts as `None` (line 236); the `finally` block (lines
314-317) removes the directory `tmp_dir` names, when it names one.  When
`_split_pdf` raises, the `except` clause (lines 310-313) produces the
failure result; if the raise happened after `mkdtemp`, the directory was
created but `tmp_dir` is still `None`, so `finally` removes nothing. -/
def convert_pdf_split_fs (stem : String) (save_images : Bool)
    (sb : SplitterBehavior) (fs : List Nat) : ConversionResult × List Nat :=
  match sb with
  | .raiseBeforeMkdir err =>
      ({ success := false, markdown := "", images := [], metadata := [],
         error := some err }, fs)
  | .raiseAfterMkdir d err =>
      ({ success := false, markdown := "", images := [], metadata := [],
         error := some err }, d :: fs)
  | .ok d outcomes =>
      (convert_pdf_split_core stem save_images outcomes, (d :: fs).erase d)

/-- Markdown rewriting of direct (non-split) mode (marker_converter.py
lines 204-210): for each image, in dict order, replace `f"({img_name})"`
by `f"(<{stem}_images/{img_name}>)"` — no part numbering. -/
def rewrite_single_md (stem : String) (md : String)
    (images : List (String × Nat)) : String :=
  images.foldl
    (fun acc p =>
      acc.replace ("(" ++ p.1 ++ ")")
        ("(<" ++ stem ++ "_images/" ++ p.1 ++ ">)"))
    md

/-- `_convert_pdf_single` (marker_converter.py lines 186-226) given the
outcome of the renderer call and file writes: on any exception a failed
result with the message; on success a successful result whose markdown is
rewritten when images are saved and present, whose image map is the
renderer's own (unprefixed), and which sets no error. -/
def convert_pdf_single (stem : String) (save_images : Bool)
    (outcome : Except String (String × List (String × Nat))) :
    ConversionResult :=
  match outcome with
  | .error e =>
      { success := false, markdown := "", images := [], metadata := [],
        error := some e }
  | .ok (md, images) =>
      { success := true,
        markdown :=
          if save_images && !images.isEmpty then
            rewrite_single_md stem md images
          else md,
        images := images,
        metadata := [] }

/-- Externally visible side effects of `convert_pdf`, in program order:
creating the given output directory (line 175), reading the file size
(line 177), and entering direct conversion (line 181) or the split
pipeline (line 183). -/
inductive Effect where
  | mkdirOutput
  | statSize
  | renderDirect
  | splitAndConvert
deriving Repr, DecidableEq

/-- Environment of one `convert_pdf` call: the input path and its stem,
whether the path exists, the size `stat` would report, whether an
`output_dir` argument was given, and the behavior of the external
renderer and splitter on this input. -/
structure PdfEnv where
  path : String
  stem : String
  pathExists : Bool
  fileSize : Nat
  outputDirGiven : Bool
  directOutcome : Except String (String × List (String × Nat))
  splitterBehavior : SplitterBehavior
deriving Repr

/-- `convert_pdf` (marker_converter.py lines 143-183), returning the
result together with the trace of side effects in program order: a
missing input returns the failure naming the path with no effect at all;
otherwise the output directory is created when one was given, the file
size is read, and the direct or split pipeline runs according to
`_get_split_count`. -/
def convert_pdf (env : PdfEnv) (save_images : Bool) :
    ConversionResult × List Effect :=
  if !env.pathExists then
    ({ success := false, markdown := "", images := [], metadata := [],
       error := some ("파일을 찾을 수 없습니다: " ++ env.path) }, [])
  else
    let pre := (if env.outputDirGiven then [Effect.mkdirOutput] else []) ++
      [Effect.statSize]
    if get_split_count env.fileSize = 1 then
      (convert_pdf_single env.stem save_images env.directOutcome,
        pre ++ [Effect.renderDirect])
    else
      ((convert_pdf_split_fs env.stem save_images env.splitterBehavior []).1,
        pre ++ [Effect.splitAndConvert])

/-- The process-wide conversion state of the web layer (`_state`,
main.py lines 20-26): `running`, `progress`, `status`, `logs`,
`result_path`. -/
structure ProgState where
  running : Bool
  progress : Nat
  status : String
  logs : List String
  result_path : Option String
deriving Repr, DecidableEq

/-- The initial `_state` (main.py lines 20-26), which is also the state
written by `_reset_state` (lines 30-36). -/
def initProgState : ProgState :=
  { running := false, progress := 0, status := "대기 중", logs := [],
    result_path := none }

/-- Progress of one job-start request (`start_convert`, main.py lines
252-273, and equally `upload_convert`, lines 210-240) through its
lock-protected critical sections: `checking` is the `with _lock: if
_state["running"]: return 409` block; `resetting` is `_reset_state()`;
`setting` is `_set(running=True)`, after which the worker thread is
spawned and the request is `accepted`; a request that saw `running=true`
at the check is `rejected` with 409.  Request-local work between the
critical sections (validation, file save) touches no shared state and is
elided. -/
inductive ReqPhase where
  | checking
  | resetting
  | setting
  | accepted
  | rejected
deriving Repr, DecidableEq

/-- One atomic (lock-protected) step of a job-start request against the
shared state.  Each of `checking`, `resetting` and `setting` is a
separate acquisition of `_lock` in the source; the lock is not held
between them. -/
def reqStep (s : ProgState) (p : ReqPhase) : ProgState × ReqPhase :=
  match p with
  | .checking => if s.running then (s, .rejected) else (s, .resetting)
  | .resetting => (initProgState, .setting)
  | .setting => ({ s with running := true }, .accepted)
  | .accepted => (s, .accepted)
  | .rejected => (s, .rejected)

/-- Interleaved execution of two concurrent job-start requests A and B:
the schedule says which request performs its next atomic step. -/
def runSched :
    List Bool → ProgState × ReqPhase × ReqPhase →
      ProgState × ReqPhase × ReqPhase
  | [], st => st
  | b :: rest, (s, pa, pb) =>
      if b then
        let r := reqStep s pa
        runSched rest (r.1, r.2, pb)
      else
        let r := reqStep s pb
        runSched rest (r.1, pa, r.2)

end MarkdownConverter

namespace MarkdownConverter

theorem split_pdf_loop_zero (total_pages pps i : Nat) :
    split_pdf_loop total_pages pps 0 i = [] := rfl

theorem split_pdf_loop_succ (total_pages pps fuel i : Nat) :
    split_pdf_loop total_pages pps (fuel + 1) i =
      if total_pages ≤ i * pps then []
      else (i * pps, min (i * pps + pps) total_pages) ::
        split_pdf_loop total_pages pps fuel (i + 1) := rfl

theorem split_pdf_loop_get (total_pages pps : Nat) :
    ∀ (fuel i j : Nat), j < (split_pdf_loop total_pages pps fuel i).length →
      (split_pdf_loop total_pages pps fuel i)[j]? =
        some ((i + j) * pps, min ((i + j + 1) * pps) total_pages) ∧
      (i + j) * pps < total_pages := by
  intro fuel
  induction fuel with
  | zero => intro i j h; simp [split_pdf_loop] at h
  | succ fuel ih =>
    intro i j h
    rw [split_pdf_loop_succ] at h ⊢
    by_cases hc : total_pages ≤ i * pps
    · simp [hc] at h
    · simp only [if_neg hc] at h ⊢
      cases j with
      | zero =>
        constructor
        · have : i * pps + pps = (i + 0 + 1) * pps := by ring
          simp [this]
        · simp only [Nat.add_zero]
          omega
      | succ j =>
        have h' : j < (split_pdf_loop total_pages pps fuel (i + 1)).length := by
          simpa using h
        have := ih (i + 1) j h'
        have e1 : i + 1 + j = i + (j + 1) := by ring
        rw [e1] at this
        simpa using this

theorem split_pdf_loop_length_le (total_pages pps : Nat) :
    ∀ (fuel i : Nat), (split_pdf_loop total_pages pps fuel i).length ≤ fuel := by
  intro fuel
  induction fuel with
  | zero => intro i; simp [split_pdf_loop]
  | succ fuel ih =>
    intro i
    rw [split_pdf_loop_succ]
    by_cases hc : total_pages ≤ i * pps
    · simp [hc]
    · simp only [if_neg hc, List.length_cons]
      exact Nat.succ_le_succ (ih (i + 1))

theorem split_pdf_loop_flat (total_pages pps : Nat) :
    ∀ (fuel i : Nat), total_pages ≤ i * pps + fuel * pps →
      (split_pdf_loop total_pages pps fuel i).flatMap rangePages =
        List.range' (i * pps) (total_pages - i * pps) := by
  intro fuel
  induction fuel with
  | zero =>
    intro i h
    simp only [Nat.zero_mul, Nat.add_zero] at h
    have : total_pages - i * pps = 0 := by omega
    simp [split_pdf_loop, this]
  | succ fuel ih =>
    intro i h
    rw [split_pdf_loop_succ]
    by_cases hc : total_pages ≤ i * pps
    · have : total_pages - i * pps = 0 := by omega
      simp [hc, this]
    · simp only [if_neg hc, List.flatMap_cons]
      have hsm : (fuel + 1) * pps = fuel * pps + pps := by ring
      have hsm2 : (i + 1) * pps = i * pps + pps := by ring
      have hrec := ih (i + 1) (by rw [hsm2]; omega)
      rw [hrec, hsm2]
      unfold rangePages
      by_cases hend : i * pps + pps ≤ total_pages
      · have hmin : min (i * pps + pps) total_pages = i * pps + pps :=
          Nat.min_eq_left hend
        rw [hmin]
        have e1 : i * pps + pps - i * pps = pps := by omega
        rw [e1]
        have := List.range'_append (i * pps) pps (total_pages - (i * pps + pps)) 1
        simp only [Nat.one_mul] at this
        rw [this]
        congr 1
        omega
      · have hmin : min (i * pps + pps) total_pages = total_pages :=
          Nat.min_eq_right (by omega)
        rw [hmin]
        have e2 : total_pages - (i * pps + pps) = 0 := by omega
        rw [e2]
        simp

theorem le_mul_pages_per_split (t k : Nat) (hk : 1 ≤ k) :
    t ≤ k * pages_per_split t k := by
  unfold pages_per_split
  have hd := Nat.div_add_mod (t + k - 1) k
  have hm : (t + k - 1) % k < k := Nat.mod_lt _ (by omega)
  set q := (t + k - 1) / k with hq
  set r := (t + k - 1) % k with hr
  omega

/-- C1: for a PDF with at least one page and a requested part count in
{1, 2, 4}, the ranges produced by `_split_pdf` satisfy: part `j` covers
`[j * pps, min ((j+1) * pps, total_pages))` with
`pps = ceil(total_pages / part_count)`; consecutive ranges are contiguous
(each range ends where the next begins); the pages of the ranges, in
order, are exactly `0, 1, ..., total_pages - 1` (so the ranges are
pairwise disjoint and their union is exactly `[0, total_pages)`); and at
most `part_count` parts are produced (fewer when a start index would
reach `total_pages`). -/
theorem split_pdf_ranges_correct (t k : Nat) (ht : 1 ≤ t)
    (hk : k = 1 ∨ k = 2 ∨ k = 4) :
    (∀ j : Nat, j < (split_pdf t k).length →
        (split_pdf t k)[j]? =
          some (j * pages_per_split t k, min ((j + 1) * pages_per_split t k) t)) ∧
    (∀ j : Nat, j + 1 < (split_pdf t k).length →
        ∃ a b, (split_pdf t k)[j]? = some a ∧
          (split_pdf t k)[j + 1]? = some b ∧ a.2 = b.1) ∧
    (split_pdf t k).flatMap rangePages = List.range t ∧
    (split_pdf t k).length ≤ k := by
  have hk1 : 1 ≤ k := by rcases hk with rfl | rfl | rfl <;> omega
  unfold split_pdf
  refine ⟨?_, ?_, ?_, ?_⟩
  · intro j h
    have := split_pdf_loop_get t (pages_per_split t k) k 0 j h
    simpa using this.1
  · intro j h
    have hj := split_pdf_loop_get t (pages_per_split t k) k 0 j (by omega)
    have hj1 := split_pdf_loop_get t (pages_per_split t k) k 0 (j + 1) h
    simp only [Nat.zero_add] at hj hj1
    refine ⟨_, _, hj.1, hj1.1, ?_⟩
    have hlt : (j + 1) * pages_per_split t k < t := hj1.2
    simp [Nat.min_eq_left (Nat.le_of_lt hlt)]
  · have := split_pdf_loop_flat t (pages_per_split t k) k 0
      (by simpa using le_mul_pages_per_split t k hk1)
    rw [List.range_eq_range']
    simpa using this
  · exact split_pdf_loop_length_le t (pages_per_split t k) k 0

/-- Witness for C1 at a concrete input: 5 pages split into 2 parts gives
ranges (0,3) and (3,5), covering pages 0..4 exactly. -/
theorem split_pdf_ranges_correct_witness :
    (1 ≤ 5 ∧ (2 = 1 ∨ 2 = 2 ∨ 2 = 4)) ∧
    ((split_pdf 5 2).flatMap rangePages = List.range 5 ∧
      (split_pdf 5 2).length ≤ 2) := by
  refine ⟨⟨by decide, by decide⟩, ?_⟩
  have h := split_pdf_ranges_correct 5 2 (by decide) (by decide)
  exact ⟨h.2.2.1, h.2.2.2⟩

/-- C2: `_get_split_count` returns one of 1, 2, 4, is monotone
non-decreasing in the file size, and follows the documented thresholds:
below 5 MB it is 1, in [5 MB, 10 MB) it is 2, and at 10 MB or above it
is 4 (1 MB = 1024 * 1024 bytes). -/
theorem get_split_count_correct :
    (∀ s, get_split_count s = 1 ∨ get_split_count s = 2 ∨ get_split_count s = 4) ∧
    (∀ a b, a ≤ b → get_split_count a ≤ get_split_count b) ∧
    (∀ s, s < 5 * 1024 * 1024 → get_split_count s = 1) ∧
    (∀ s, 5 * 1024 * 1024 ≤ s → s < 10 * 1024 * 1024 → get_split_count s = 2) ∧
    (∀ s, 10 * 1024 * 1024 ≤ s → get_split_count s = 4) := by
  refine ⟨?_, ?_, ?_, ?_, ?_⟩ <;>
    intros <;>
    simp only [get_split_count, SPLIT_THRESHOLD_2, SPLIT_THRESHOLD_4] <;>
    split_ifs <;>
    omega

/-- Witness for C2 at concrete sizes: 2 MB gives 1 part, 7 MB gives 2,
12 MB gives 4, and the count is monotone between 2 MB and 7 MB. -/
theorem get_split_count_correct_witness :
    get_split_count (2 * 1024 * 1024) = 1 ∧
    get_split_count (7 * 1024 * 1024) = 2 ∧
    get_split_count (12 * 1024 * 1024) = 4 ∧
    get_split_count (2 * 1024 * 1024) ≤ get_split_count (7 * 1024 * 1024) :=
  ⟨get_split_count_correct.2.2.1 _ (by norm_num),
   get_split_count_correct.2.2.2.1 _ (by norm_num) (by norm_num),
   get_split_count_correct.2.2.2.2 _ (by norm_num),
   get_split_count_correct.2.1 _ _ (by norm_num)⟩

theorem split_convert_loop_none (stem : String) (si : Bool)
    (rest : List PartOutcome) (i : Nat) (acc : SplitAcc) :
    split_convert_loop stem si (none :: rest) i acc =
      split_convert_loop stem si rest (i + 1)
        { acc with fail_count := acc.fail_count + 1 } := rfl

theorem split_convert_loop_some (stem : String) (si : Bool)
    (md : String) (images : List (String × Nat))
    (rest : List PartOutcome) (i : Nat) (acc : SplitAcc) :
    split_convert_loop stem si (some (md, images) :: rest) i acc =
      split_convert_loop stem si rest (i + 1)
        { md_parts := acc.md_parts ++
            [if si && !images.isEmpty then
              rewrite_part_md stem (i + 1) md images
            else md]
          all_images :=
            if si && !images.isEmpty then
              insert_part_images acc.all_images (i + 1) images
            else acc.all_images
          success_count := acc.success_count + 1
          fail_count := acc.fail_count } := rfl

theorem split_convert_loop_spec (stem : String) (si : Bool) :
    ∀ (outcomes : List PartOutcome) (i : Nat) (acc : SplitAcc),
      split_convert_loop stem si outcomes i acc =
        { md_parts := acc.md_parts ++ processed_mds stem si i outcomes
          all_images := loop_images si i outcomes acc.all_images
          success_count :=
            acc.success_count + outcomes.countP (fun o => o.isSome)
          fail_count :=
            acc.fail_count + outcomes.countP (fun o => o.isNone) } := by
  intro outcomes
  induction outcomes with
  | nil =>
    intro i acc
    simp [split_convert_loop, processed_mds, loop_images]
  | cons o rest ih =>
    intro i acc
    match o with
    | none =>
      rw [split_convert_loop_none, ih]
      simp only [processed_mds, loop_images, List.countP_cons]
      simp [SplitAcc.mk.injEq, Nat.add_assoc, Nat.add_comm, Nat.add_left_comm]
    | some (md, images) =>
      rw [split_convert_loop_some, ih]
      simp only [processed_mds, loop_images, List.countP_cons]
      simp [SplitAcc.mk.injEq, Nat.add_assoc, Nat.add_comm, Nat.add_left_comm]

theorem processed_mds_length (stem : String) (si : Bool) :
    ∀ (outcomes : List PartOutcome) (i : Nat),
      (processed_mds stem si i outcomes).length =
        outcomes.countP (fun o => o.isSome) := by
  intro outcomes
  induction outcomes with
  | nil => intro i; simp [processed_mds]
  | cons o rest ih =>
    intro i
    match o with
    | none => simp [processed_mds, ih, List.countP_cons]
    | some (md, images) => simp [processed_mds, ih, List.countP_cons]

theorem countP_isNone_add_isSome :
    ∀ l : List PartOutcome,
      l.countP (fun o => o.isNone) + l.countP (fun o => o.isSome) =
        l.length := by
  intro l
  induction l with
  | nil => simp
  | cons o rest ih =>
    match o with
    | none => simp [List.countP_cons]; omega
    | some _ => simp [List.countP_cons]; omega

/-- C3: over the `k` parts produced by the splitter, with `s` the number
of parts whose conversion succeeded: if `s = 0` the result of
`_convert_pdf_split` is a failure carrying the all-parts-failed error
(and empty markdown and image map); if `0 < s` the result is a success
with no error and metadata `split_count = k`, `success_count = s`,
`fail_count = k - s` — failed parts only increment the fail counter
while the remaining parts are still processed. -/
theorem convert_pdf_split_outcome (stem : String) (si : Bool)
    (outcomes : List PartOutcome) :
    (outcomes.countP (fun o => o.isSome) = 0 →
      (convert_pdf_split_core stem si outcomes).success = false ∧
      (convert_pdf_split_core stem si outcomes).markdown = "" ∧
      (convert_pdf_split_core stem si outcomes).images = [] ∧
      (convert_pdf_split_core stem si outcomes).error =
        some ("모든 파트(" ++ toString outcomes.length ++ "개) 변환 실패")) ∧
    (0 < outcomes.countP (fun o => o.isSome) →
      (convert_pdf_split_core stem si outcomes).success = true ∧
      (convert_pdf_split_core stem si outcomes).error = none ∧
      (convert_pdf_split_core stem si outcomes).metadata =
        [("split_count", outcomes.length),
         ("success_count", outcomes.countP (fun o => o.isSome)),
         ("fail_count",
          outcomes.length - outcomes.countP (fun o => o.isSome))]) := by
  have hloop := split_convert_loop_spec stem si outcomes 0 ⟨[], [], 0, 0⟩
  have hlen := processed_mds_length stem si outcomes 0
  have hcnt := countP_isNone_add_isSome outcomes
  constructor
  · intro hzero
    have hnil : processed_mds stem si 0 outcomes = [] :=
      List.length_eq_zero.mp (by rw [hlen, hzero])
    unfold convert_pdf_split_core
    rw [hloop]
    simp [hnil]
  · intro hpos
    have hne : processed_mds stem si 0 outcomes ≠ [] := by
      intro hh
      rw [hh] at hlen
      simp at hlen
      omega
    unfold convert_pdf_split_core
    rw [hloop]
    simp only [List.nil_append, Nat.zero_add, List.isEmpty_iff, if_neg hne]
    refine ⟨by trivial, by trivial, ?_⟩
    have : outcomes.countP (fun o => o.isNone) =
        outcomes.length - outcomes.countP (fun o => o.isSome) := by omega
    rw [this]

/-- Witness for C3 at a concrete input: two produced parts, the first
succeeding and the second failing, give a success with metadata
`split_count = 2`, `success_count = 1`, `fail_count = 1`; two failing
parts give a failure with the all-parts-failed error. -/
theorem convert_pdf_split_outcome_witness :
    (convert_pdf_split_core "doc" true [some ("A", []), none]).success = true ∧
    (convert_pdf_split_core "doc" true [some ("A", []), none]).metadata =
      [("split_count", 2), ("success_count", 1), ("fail_count", 1)] ∧
    (convert_pdf_split_core "doc" true [none, none]).success = false := by
  have h1 := (convert_pdf_split_outcome "doc" true [some ("A", []), none]).2
    (by decide)
  have h2 := (convert_pdf_split_outcome "doc" true [none, none]).1 (by decide)
  exact ⟨h1.1, by simpa using h1.2.2, h2.1⟩

theorem processed_mds_no_images (stem : String) :
    ∀ (outcomes : List PartOutcome) (i : Nat),
      processed_mds stem false i outcomes =
        (outcomes.filterMap id).map Prod.fst := by
  intro outcomes
  induction outcomes with
  | nil => intro i; simp [processed_mds]
  | cons o rest ih =>
    intro i
    match o with
    | none => simp [processed_mds, ih, List.filterMap_cons]
    | some (md, images) => simp [processed_mds, ih, List.filterMap_cons]

/-- C7: when at least one part succeeds, the merged markdown of
`_convert_pdf_split` is exactly the successful parts' markdown texts, in
ascending part order, joined by the delimiter `"\n\n---\n\n"` — each
surviving part's text appears once and in order; when `save_images` is
off the texts are exactly the renderer outputs of the successful parts,
and otherwise each text is that output with its image references
rewritten to the part-prefixed paths. -/
theorem convert_pdf_split_markdown (stem : String) (si : Bool)
    (outcomes : List PartOutcome) :
    (0 < outcomes.countP (fun o => o.isSome) →
      (convert_pdf_split_core stem si outcomes).markdown =
        String.intercalate "\n\n---\n\n" (processed_mds stem si 0 outcomes)) ∧
    processed_mds stem false 0 outcomes =
      (outcomes.filterMap id).map Prod.fst := by
  constructor
  · intro hpos
    have hloop := split_convert_loop_spec stem si outcomes 0 ⟨[], [], 0, 0⟩
    have hlen := processed_mds_length stem si outcomes 0
    have hne : processed_mds stem si 0 outcomes ≠ [] := by
      intro hh
      rw [hh] at hlen
      simp at hlen
      omega
    unfold convert_pdf_split_core
    rw [hloop]
    simp only [List.nil_append, List.isEmpty_iff, if_neg hne]
  · exact processed_mds_no_images stem outcomes 0

/-- Witness for C7 at a concrete input: parts "A", failed, "B" merge to
`"A\n\n---\n\nB"`. -/
theorem convert_pdf_split_markdown_witness :
    (convert_pdf_split_core "doc" false
      [some ("A", []), none, some ("B", [])]).markdown = "A\n\n---\n\nB" := by
  have h := (convert_pdf_split_markdown "doc" false
    [some ("A", []), none, some ("B", [])]).1 (by decide)
  rw [h]
  rfl

theorem part_key_digit (n : Nat) (h : n < 10) (a : String) :
    (part_key n a).data =
      'p' :: 'a' :: 'r' :: 't' :: Nat.digitChar n :: '_' :: a.data := by
  interval_cases n <;> simp [part_key, String.data_append] <;> rfl

theorem part_key_inj (n m : Nat) (hn : n < 10) (hm : m < 10) (a b : String)
    (h : part_key n a = part_key m b) : n = m ∧ a = b := by
  have hd := congrArg String.data h
  rw [part_key_digit n hn, part_key_digit m hm] at hd
  simp at hd
  obtain ⟨hdig, hdata⟩ := hd
  constructor
  · revert hdig
    interval_cases n <;> interval_cases m <;> simp [Nat.digitChar]
  · exact String.ext hdata

theorem dictInsert_fresh (m : List (String × Nat)) (k : String) (v : Nat)
    (h : k ∉ m.map Prod.fst) : dictInsert m k v = m ++ [(k, v)] := by
  unfold dictInsert
  rw [if_neg]
  intro hc
  rw [List.any_eq_true] at hc
  obtain ⟨p, hp, he⟩ := hc
  simp at he
  exact h (List.mem_map.mpr ⟨p, hp, he⟩)

theorem insert_part_images_nil (m : List (String × Nat)) (pn : Nat) :
    insert_part_images m pn [] = m := rfl

theorem insert_part_images_cons (m : List (String × Nat)) (pn : Nat)
    (p : String × Nat) (rest : List (String × Nat)) :
    insert_part_images m pn (p :: rest) =
      insert_part_images (dictInsert m (part_key pn p.1) p.2) pn rest := rfl

theorem insert_part_images_fresh (pn : Nat) (hpn : pn < 10) :
    ∀ (images m : List (String × Nat)),
      (images.map Prod.fst).Nodup →
      (∀ name ∈ images.map Prod.fst, part_key pn name ∉ m.map Prod.fst) →
      insert_part_images m pn images =
        m ++ images.map (fun p => (part_key pn p.1, p.2)) := by
  intro images
  induction images with
  | nil => intro m _ _; simp [insert_part_images_nil]
  | cons p rest ih =>
    intro m hnd hfresh
    have hnd' : p.1 ∉ rest.map Prod.fst ∧ (rest.map Prod.fst).Nodup := by
      rw [List.map_cons, List.nodup_cons] at hnd
      exact hnd
    rw [insert_part_images_cons,
      dictInsert_fresh m _ p.2 (hfresh p.1 (by simp))]
    rw [ih (m ++ [(part_key pn p.1, p.2)])]
    · simp
    · exact hnd'.2
    · intro name hname
      rw [List.map_append, List.mem_append]
      push_neg
      constructor
      · exact hfresh name (by simp [hname])
      · have hne : name ≠ p.1 := by
          intro he
          exact hnd'.1 (he ▸ hname)
        intro hmem
        simp at hmem
        exact hne (part_key_inj pn pn hpn hpn name p.1 hmem).2

theorem loop_images_none (si : Bool) (i : Nat) (rest : List PartOutcome)
    (m : List (String × Nat)) :
    loop_images si i (none :: rest) m = loop_images si (i + 1) rest m := rfl

theorem loop_images_some (si : Bool) (i : Nat) (md : String)
    (images : List (String × Nat)) (rest : List PartOutcome)
    (m : List (String × Nat)) :
    loop_images si i (some (md, images) :: rest) m =
      loop_images si (i + 1) rest
        (if si && !images.isEmpty then
          insert_part_images m (i + 1) images
        else m) := rfl

theorem merged_keys_bound :
    ∀ (outcomes : List PartOutcome) (i : Nat) (key : String),
      key ∈ (merged_images_expected i outcomes).map Prod.fst →
      ∃ j name, i + 1 ≤ j ∧ j ≤ i + outcomes.length ∧
        key = part_key j name := by
  intro outcomes
  induction outcomes with
  | nil => intro i key h; simp [merged_images_expected] at h
  | cons o rest ih =>
    intro i key h
    match o with
    | none =>
      obtain ⟨j, name, h1, h2, h3⟩ :=
        ih (i + 1) key (by simpa [merged_images_expected] using h)
      exact ⟨j, name, by omega, by simp only [List.length_cons]; omega, h3⟩
    | some (md, images) =>
      simp only [merged_images_expected, List.map_append, List.mem_append,
        List.map_map] at h
      rcases h with h | h
      · simp only [List.mem_map, Function.comp] at h
        obtain ⟨p, _, hp⟩ := h
        refine ⟨i + 1, p.1, le_refl _,
          by simp only [List.length_cons]; omega, hp.symm⟩
      · obtain ⟨j, name, h1, h2, h3⟩ := ih (i + 1) key h
        exact ⟨j, name, by omega, by simp only [List.length_cons]; omega, h3⟩

theorem loop_images_ok :
    ∀ (outcomes : List PartOutcome) (i : Nat) (m : List (String × Nat)),
      i + outcomes.length ≤ 9 →
      (∀ key ∈ m.map Prod.fst, ∃ j name, j ≤ i ∧ key = part_key j name) →
      (∀ md imgs, some (md, imgs) ∈ outcomes → (imgs.map Prod.fst).Nodup) →
      loop_images true i outcomes m = m ++ merged_images_expected i outcomes := by
  intro outcomes
  induction outcomes with
  | nil => intro i m _ _ _; simp [loop_images, merged_images_expected]
  | cons o rest ih =>
    intro i m hlen hkeys hnd
    match o with
    | none =>
      rw [loop_images_none]
      rw [ih (i + 1) m (by simp only [List.length_cons] at hlen; omega)
        (fun key hk => by
          obtain ⟨j, name, hj, he⟩ := hkeys key hk
          exact ⟨j, name, by omega, he⟩)
        (fun md imgs hmem => hnd md imgs (by simp [hmem]))]
      simp [merged_images_expected]
    | some (md, images) =>
      rw [loop_images_some]
      have hi10 : i + 1 < 10 := by
        simp only [List.length_cons] at hlen
        omega
      by_cases hemp : images.isEmpty
      · have himg : images = [] := List.isEmpty_iff.mp hemp
        subst himg
        rw [if_neg (by simp)]
        rw [ih (i + 1) m (by simp only [List.length_cons] at hlen; omega)
          (fun key hk => by
            obtain ⟨j, name, hj, he⟩ := hkeys key hk
            exact ⟨j, name, by omega, he⟩)
          (fun md2 imgs hmem => hnd md2 imgs (by simp [hmem]))]
        simp [merged_images_expected]
      · have hcond : (true && !images.isEmpty) = true := by
          simp [hemp]
        rw [if_pos hcond]
        have hndthis : (images.map Prod.fst).Nodup :=
          hnd md images (by simp)
        rw [insert_part_images_fresh (i + 1) hi10 images m hndthis
          (fun name _ hmem => by
            obtain ⟨j, name2, hj, he⟩ := hkeys _ hmem
            have := part_key_inj (i + 1) j hi10 (by omega) name name2 he
            omega)]
        rw [ih (i + 1) (m ++ images.map fun p => (part_key (i + 1) p.1, p.2))
          (by simp only [List.length_cons] at hlen; omega)
          (fun key hk => by
            rw [List.map_append, List.mem_append] at hk
            rcases hk with hk | hk
            · obtain ⟨j, name, hj, he⟩ := hkeys key hk
              exact ⟨j, name, by omega, he⟩
            · simp only [List.map_map, List.mem_map, Function.comp] at hk
              obtain ⟨p, _, hp⟩ := hk
              exact ⟨i + 1, p.1, le_refl _, hp.symm⟩)
          (fun md2 imgs hmem => hnd md2 imgs (by simp [hmem]))]
        simp [merged_images_expected]

theorem merged_keys_nodup :
    ∀ (outcomes : List PartOutcome) (i : Nat),
      i + outcomes.length ≤ 9 →
      (∀ md imgs, some (md, imgs) ∈ outcomes → (imgs.map Prod.fst).Nodup) →
      ((merged_images_expected i outcomes).map Prod.fst).Nodup := by
  intro outcomes
  induction outcomes with
  | nil => intro i _ _; simp [merged_images_expected]
  | cons o rest ih =>
    intro i hlen hnd
    match o with
    | none =>
      simp only [merged_images_expected]
      exact ih (i + 1) (by simp only [List.length_cons] at hlen; omega)
        (fun md imgs hmem => hnd md imgs (by simp [hmem]))
    | some (md, images) =>
      have hi10 : i + 1 < 10 := by simp only [List.length_cons] at hlen; omega
      simp only [merged_images_expected, List.map_append, List.map_map]
      rw [List.nodup_append]
      refine ⟨?_, ?_, ?_⟩
      · have : (images.map (Prod.fst ∘ fun p => (part_key (i + 1) p.1, p.2))) =
            (images.map Prod.fst).map (part_key (i + 1)) := by
          simp [List.map_map]
        rw [this]
        refine List.Nodup.map ?_ (hnd md images (by simp))
        intro a b hab
        exact (part_key_inj (i + 1) (i + 1) hi10 hi10 a b hab).2
      · exact ih (i + 1) (by simp only [List.length_cons] at hlen; omega)
          (fun md2 imgs hmem => hnd md2 imgs (by simp [hmem]))
      · intro key hk1 hk2
        simp only [List.mem_map, Function.comp] at hk1
        obtain ⟨p, _, hp⟩ := hk1
        obtain ⟨j, name, hj1, hj2, he⟩ := merged_keys_bound rest (i + 1) key hk2
        rw [← hp] at he
        have := part_key_inj (i + 1) j hi10 (by simp only [List.length_cons] at hlen; omega) p.1 name he
        omega

theorem merged_images_length :
    ∀ (outcomes : List PartOutcome) (i : Nat),
      (merged_images_expected i outcomes).length =
        ((outcomes.filterMap id).map (fun p => p.2.length)).sum := by
  intro outcomes
  induction outcomes with
  | nil => intro i; simp [merged_images_expected]
  | cons o rest ih =>
    intro i
    match o with
    | none => simp [merged_images_expected, List.filterMap_cons, ih]
    | some (md, images) =>
      simp [merged_images_expected, List.filterMap_cons, ih]

theorem merged_images_of_all_none :
    ∀ (outcomes : List PartOutcome) (i : Nat),
      (∀ o ∈ outcomes, o = none) →
      merged_images_expected i outcomes = [] := by
  intro outcomes
  induction outcomes with
  | nil => intro i _; simp [merged_images_expected]
  | cons o rest ih =>
    intro i hall
    match o with
    | none =>
      simp only [merged_images_expected]
      exact ih (i + 1) (fun o2 h2 => hall o2 (by simp [h2]))
    | some (md, images) =>
      have := hall (some (md, images)) (by simp)
      simp at this

/-- C8: in split mode with image saving on, when each successful part has
distinct image names, the merged image map of `_convert_pdf_split` is
exactly the successful parts' images in part order under the
part-prefixed keys `part<N>_<original-name>`; these keys are pairwise
distinct (two parts with identically-named images both survive), every
key is of the prefixed form for a part number between 1 and the part
count, and the size of the merged map is the sum of the successful parts'
image-map sizes. -/
theorem convert_pdf_split_images (stem : String) (outcomes : List PartOutcome)
    (hlen : outcomes.length ≤ 4)
    (hnd : ∀ md imgs, some (md, imgs) ∈ outcomes →
      (imgs.map Prod.fst).Nodup) :
    (convert_pdf_split_core stem true outcomes).images =
      merged_images_expected 0 outcomes ∧
    (((convert_pdf_split_core stem true outcomes).images.map Prod.fst).Nodup) ∧
    (convert_pdf_split_core stem true outcomes).images.length =
      ((outcomes.filterMap id).map (fun p => p.2.length)).sum ∧
    (∀ p ∈ (convert_pdf_split_core stem true outcomes).images,
      ∃ j name, 1 ≤ j ∧ j ≤ outcomes.length ∧ p.1 = part_key j name) := by
  have heq : (convert_pdf_split_core stem true outcomes).images =
      merged_images_expected 0 outcomes := by
    have hloop := split_convert_loop_spec stem true outcomes 0 ⟨[], [], 0, 0⟩
    have hlenmd := processed_mds_length stem true outcomes 0
    unfold convert_pdf_split_core
    rw [hloop]
    by_cases hz : outcomes.countP (fun o => o.isSome) = 0
    · have hnil : processed_mds stem true 0 outcomes = [] :=
        List.length_eq_zero.mp (by rw [hlenmd, hz])
      have hallnone : ∀ o ∈ outcomes, o = none := by
        intro o ho
        have := List.countP_eq_zero.mp hz o ho
        cases o with
        | none => rfl
        | some v => simp at this
      rw [merged_images_of_all_none outcomes 0 hallnone]
      simp [hnil]
    · have hne : processed_mds stem true 0 outcomes ≠ [] := by
        intro hh
        rw [hh] at hlenmd
        simp at hlenmd
        omega
      simp only [List.nil_append, List.isEmpty_iff, if_neg hne]
      exact loop_images_ok outcomes 0 [] (by omega)
        (by intro key h; simp at h) hnd
  refine ⟨heq, ?_, ?_, ?_⟩
  · rw [heq]
    exact merged_keys_nodup outcomes 0 (by omega) hnd
  · rw [heq]
    exact merged_images_length outcomes 0
  · intro p hp
    rw [heq] at hp
    obtain ⟨j, name, h1, h2, h3⟩ :=
      merged_keys_bound outcomes 0 p.1 (List.mem_map.mpr ⟨p, hp, rfl⟩)
    exact ⟨j, name, by omega, by omega, h3⟩

/-- Witness for C8 at a concrete input: two parts that both produce an
image named "img.png"; both survive, under "part1_img.png" and
"part2_img.png". -/
theorem convert_pdf_split_images_witness :
    (convert_pdf_split_core "doc" true
        [some ("A", [("img.png", 7)]), some ("B", [("img.png", 8)])]).images =
      [("part1_img.png", 7), ("part2_img.png", 8)] ∧
    ((convert_pdf_split_core "doc" true
        [some ("A", [("img.png", 7)]),
         some ("B", [("img.png", 8)])]).images.map Prod.fst).Nodup := by
  have h := convert_pdf_split_images "doc"
    [some ("A", [("img.png", 7)]), some ("B", [("img.png", 8)])]
    (by decide)
    (by intro md imgs hmem; simp at hmem;
        rcases hmem with ⟨_, he⟩ | ⟨_, he⟩ <;> rw [he] <;> decide)
  refine ⟨?_, h.2.1⟩
  rw [h.1]
  decide

/-- C4 counterexample: when the splitter raises after creating the
scratch directory (a part write failing on line 112 of
marker_converter.py, say), the tuple assignment on line 239 never binds
`tmp_dir`, the `finally` block removes nothing, and the scratch
directory created during the call still exists after `_convert_pdf_split`
returns — against the claim that every exit path removes it. -/
theorem convert_pdf_split_fs_leak :
    (convert_pdf_split_fs "doc" true
      (SplitterBehavior.raiseAfterMkdir 0 "write error") []).2 = [0] ∧
    (convert_pdf_split_fs "doc" true
      (SplitterBehavior.raiseAfterMkdir 0 "write error") []).2 ≠ [] := by
  exact ⟨rfl, by decide⟩

/-- C4 amended: on the exit paths where `_split_pdf` returns (full
success, partial success, all parts failed) the scratch directory it
created is removed before `_convert_pdf_split` returns, and when the
splitter fails before `mkdtemp` no directory is created; only a splitter
failure after `mkdtemp` leaks the directory. -/
theorem convert_pdf_split_fs_cleanup (stem : String) (si : Bool)
    (err : String) (d : Nat) (outcomes : List PartOutcome)
    (fs : List Nat) :
    (convert_pdf_split_fs stem si
      (SplitterBehavior.raiseBeforeMkdir err) fs).2 = fs ∧
    (convert_pdf_split_fs stem si
      (SplitterBehavior.ok d outcomes) fs).2 = fs := by
  constructor
  · rfl
  · simp [convert_pdf_split_fs]

theorem convert_pdf_split_core_invariant (stem : String) (si : Bool)
    (outcomes : List PartOutcome) :
    ((convert_pdf_split_core stem si outcomes).success = true →
      (convert_pdf_split_core stem si outcomes).error = none) ∧
    ((convert_pdf_split_core stem si outcomes).success = false →
      (convert_pdf_split_core stem si outcomes).markdown = "" ∧
      (convert_pdf_split_core stem si outcomes).images = [] ∧
      (convert_pdf_split_core stem si outcomes).error ≠ none) := by
  have hloop := split_convert_loop_spec stem si outcomes 0 ⟨[], [], 0, 0⟩
  unfold convert_pdf_split_core
  rw [hloop]
  by_cases h : processed_mds stem si 0 outcomes = []
  · simp [h]
  · simp only [List.nil_append, List.isEmpty_iff, if_neg h]
    simp

/-- C9: every `ConversionResult` produced by `convert_pdf` — through the
missing-input path, the direct path (renderer success or failure), and
the split path (splitter failure before or after `mkdtemp`, all parts
failed, or merge) — satisfies the invariant: `success = true` implies
`error` is absent, and `success = false` implies the markdown is empty,
the image map is empty, and an error is present. -/
theorem convert_pdf_result_invariant (env : PdfEnv) (si : Bool) :
    ((convert_pdf env si).1.success = true →
      (convert_pdf env si).1.error = none) ∧
    ((convert_pdf env si).1.success = false →
      (convert_pdf env si).1.markdown = "" ∧
      (convert_pdf env si).1.images = [] ∧
      (convert_pdf env si).1.error ≠ none) := by
  unfold convert_pdf
  cases hpe : env.pathExists with
  | false => simp
  | true =>
    simp only [Bool.not_true, Bool.false_eq_true, if_false]
    by_cases hsc : get_split_count env.fileSize = 1
    · simp only [if_pos hsc]
      unfold convert_pdf_single
      rcases env.directOutcome with e | ⟨md, images⟩ <;> simp
    · simp only [if_neg hsc]
      rcases env.splitterBehavior with e | ⟨d, e⟩ | ⟨d, outcomes⟩
      · simp [convert_pdf_split_fs]
      · simp [convert_pdf_split_fs]
      · simpa [convert_pdf_split_fs] using
          convert_pdf_split_core_invariant env.stem si outcomes

/-- Witness for C9 at a concrete environment: a missing input file gives
a failed result with empty markdown, empty image map, and an error
present. -/
theorem convert_pdf_result_invariant_witness :
    (convert_pdf
      { path := "missing.pdf", stem := "missing", pathExists := false,
        fileSize := 0, outputDirGiven := false,
        directOutcome := Except.error "unused",
        splitterBehavior := SplitterBehavior.raiseBeforeMkdir "unused" }
      true).1.markdown = "" ∧
    (convert_pdf
      { path := "missing.pdf", stem := "missing", pathExists := false,
        fileSize := 0, outputDirGiven := false,
        directOutcome := Except.error "unused",
        splitterBehavior := SplitterBehavior.raiseBeforeMkdir "unused" }
      true).1.images = [] ∧
    (convert_pdf
      { path := "missing.pdf", stem := "missing", pathExists := false,
        fileSize := 0, outputDirGiven := false,
        directOutcome := Except.error "unused",
        splitterBehavior := SplitterBehavior.raiseBeforeMkdir "unused" }
      true).1.error ≠ none :=
  (convert_pdf_result_invariant
    { path := "missing.pdf", stem := "missing", pathExists := false,
      fileSize := 0, outputDirGiven := false,
      directOutcome := Except.error "unused",
      splitterBehavior := SplitterBehavior.raiseBeforeMkdir "unused" }
    true).2 rfl

/-- C10: when the input path does not exist, `convert_pdf` returns a
failed result whose error names the path, and performs no side effect at
all — no output-directory creation, no size stat, no renderer call, no
split: the trace is empty, so the existence check precedes all other
work. -/
theorem convert_pdf_missing_input (env : PdfEnv) (si : Bool)
    (h : env.pathExists = false) :
    convert_pdf env si =
      ({ success := false, markdown := "", images := [], metadata := [],
         error := some ("파일을 찾을 수 없습니다: " ++ env.path) }, []) := by
  unfold convert_pdf
  simp [h]

/-- Witness for C10 at a concrete environment: the result names
"missing.pdf" in its error and the effect trace is empty. -/
theorem convert_pdf_missing_input_witness :
    convert_pdf
        { path := "missing.pdf", stem := "missing", pathExists := false,
          fileSize := 12 * 1024 * 1024, outputDirGiven := true,
          directOutcome := Except.ok ("md", []),
          splitterBehavior := SplitterBehavior.ok 0 [some ("md", [])] }
        true =
      ({ success := false, markdown := "", images := [], metadata := [],
         error := some "파일을 찾을 수 없습니다: missing.pdf" }, []) :=
  convert_pdf_missing_input
    { path := "missing.pdf", stem := "missing", pathExists := false,
      fileSize := 12 * 1024 * 1024, outputDirGiven := true,
      directOutcome := Except.ok ("md", []),
      splitterBehavior := SplitterBehavior.ok 0 [some ("md", [])] }
    true rfl

/-- C6 counterexample: the `running` check and the `running = true`
transition are separate lock acquisitions (main.py lines 254-256 versus
line 271), so two concurrent start requests can interleave between them
and both be accepted: A checks, B checks, A resets and sets, B resets
and sets — both reach `accepted`, and B has also reset the state of the
job A started, against the claim that two concurrent start requests can
never both be accepted. -/
theorem start_convert_race :
    (runSched [true, false, true, true, false, false]
      (initProgState, ReqPhase.checking, ReqPhase.checking)).2.1 =
        ReqPhase.accepted ∧
    (runSched [true, false, true, true, false, false]
      (initProgState, ReqPhase.checking, ReqPhase.checking)).2.2 =
        ReqPhase.accepted := by
  exact ⟨rfl, rfl⟩

/-- C6 amended: a start request that performs its check while
`running = true` is rejected (HTTP 409) by that atomic check, and the
rejection leaves the shared ProgressState exactly as it was; the check
alone is atomic under the lock, but the `running = true` transition is a
separate later critical section, so mutual exclusion of two concurrent
start requests is not guaranteed (see the counterexample). -/
theorem start_convert_reject (s : ProgState) (h : s.running = true) :
    reqStep s ReqPhase.checking = (s, ReqPhase.rejected) := by
  simp [reqStep, h]

/-- Witness for the C6 amended theorem: with a job running, the check
step rejects and leaves the state untouched. -/
theorem start_convert_reject_witness :
    reqStep { initProgState with running := true } ReqPhase.checking =
      ({ initProgState with running := true }, ReqPhase.rejected) :=
  start_convert_reject { initProgState with running := true } rfl

end MarkdownConverter
